import Mathlib

/-
  Verification development for the cryptohunk repository.

  Shallow embedding of the core decision/accounting pipeline:
  - src/src/rebalance_portfolio.py   (TA1 score, TA2 signal, override rules)
  - src/hunk2/src/create_trade_plan.py (liquidity-aware trade plan)
  - src/src/analyze_trades.py        (FIFO realized-PnL engine)
  - src/src/technical_analysis.py    (RSI computation)

  Python floats / Decimals are modelled as exact rationals where only
  comparisons and exact ring operations occur; the RSI pipeline, whose
  behaviour at zero denominators depends on IEEE-754 special values,
  is modelled with an extended-rational type carrying NaN and infinities.
-/

namespace Cryptohunk

/-- Trading signal values, modelling the Python strings "BUY", "SELL", "HOLD". -/
inductive Signal
  | BUY
  | SELL
  | HOLD
deriving DecidableEq, Repr

/-- One row of the technical-analysis table (columns accessed by the
rebalancing code).  A `none` field models a pandas NaN / missing value,
as tested by pd.notna / pd.isna in the source. -/
structure TARow where
  close : Option ℚ
  rsi_14 : Option ℚ
  ema_12 : Option ℚ
  ema_21 : Option ℚ
  ema_26 : Option ℚ
  ema_50 : Option ℚ
  ema_200 : Option ℚ
  macd : Option ℚ
  macd_signal : Option ℚ
deriving DecidableEq, Repr

/-- RSI term of RebalancePortfolio._calculate_ta_score:
RSI_14 below 30 contributes +1, above 70 contributes -1, otherwise 0;
a missing value contributes 0 (the pd.notna guard). -/
def taScoreRsi (row : TARow) : Int :=
  match row.rsi_14 with
  | some r => if r < 30 then 1 else if r > 70 then -1 else 0
  | none => 0

/-- Comparison term of RebalancePortfolio._calculate_ta_score for a pair of
columns: first strictly above second contributes +1, strictly below -1,
equality 0; any missing value contributes 0. -/
def taScorePair (a b : Option ℚ) : Int :=
  match a, b with
  | some x, some y => if x > y then 1 else if x < y then -1 else 0
  | _, _ => 0

/-- RebalancePortfolio._calculate_ta_score: the score starts at 0 and the four
independent blocks (RSI, EMA_12 vs EMA_26, MACD vs MACD_Signal, Close vs
EMA_200) each add their contribution; sequential `score +=` updates are the
sum of the four terms. -/
def calculate_ta_score (row : TARow) : Int :=
  taScoreRsi row
    + taScorePair row.ema_12 row.ema_26
    + taScorePair row.macd row.macd_signal
    + taScorePair row.close row.ema_200

/-- Minimum of a list of rationals, `none` on the empty list (modelling the
NaN that pandas Series.min returns for an empty window). -/
def minQ : List ℚ → Option ℚ
  | [] => none
  | x :: xs => some (xs.foldl min x)

/-- RebalancePortfolio._calculate_ta2_signal: long-only trend-following
pullback strategy evaluated on the latest row of the table.
Returns 1 (BUY), -1 (SELL) or 0 (HOLD).
`useEma50Filter` models cfg.ta2_use_ema50_filter.
The lookback window `iloc[-(LOOKBACK+1):-1]` with LOOKBACK = 8 is the 8 rows
preceding the last row. -/
def calculate_ta2_signal (useEma50Filter : Bool) (rows : List TARow) : Int :=
  if rows.length < 9 then 0
  else
    match rows.get? (rows.length - 1), rows.get? (rows.length - 2) with
    | some last, some prev =>
      (match last.macd, last.macd_signal with
      | some m, some ms =>
        if m < ms then -1
        else
          (match last.close, last.ema_200, last.ema_21, last.rsi_14, prev.rsi_14 with
          | some c, some e200, some e21, some rt, some rp =>
            if c ≤ e200 then 0
            else if m ≤ ms then 0
            else if c ≤ e21 then 0
            else if rp > 50 ∨ rt ≤ 50 then 0
            else
              -- rsi_lookback = ta_df["RSI_14"].iloc[-9:-1]
              (let window := ((rows.drop (rows.length - 9)).take 8).map (fun r => r.rsi_14)
              if window.any (fun o => o.isNone) then 0
              else
                match minQ (window.filterMap id) with
                | some mn =>
                  if 45 ≤ mn then 0
                  else
                    if useEma50Filter then
                      match last.ema_50 with
                      | some e50 => if e50 ≤ e200 then 0 else 1
                      | none => 0
                    else 1
                | none =>
                  -- empty window: pandas min is NaN and NaN >= 45 is False,
                  -- so the check falls through (unreachable when length >= 9)
                  if useEma50Filter then
                    match last.ema_50 with
                    | some e50 => if e50 ≤ e200 then 0 else 1
                    | none => 0
                  else 1)
          | _, _, _, _, _ => 0)
      | _, _ => 0)
    | _, _ => 0

/-- Shared tail of RebalancePortfolio._generate_signal: the TA-based signal
block (score >= 1 is BUY, score <= -1 is SELL, else HOLD), priority 3. -/
def taSignalOf (ta_score : Int) : Signal × Nat :=
  if ta_score ≥ 1 then (Signal.BUY, 3)
  else if ta_score ≤ -1 then (Signal.SELL, 3)
  else (Signal.HOLD, 3)

/-- RebalancePortfolio._generate_signal: override rules combining the raw TA
score with holding state.  The cfg fields trade_threshold,
take_profit_percentage and stop_loss_percentage are passed explicitly.
The source branches on current_value_usdc < trade_threshold and falls
through to the common TA block when no rule fires. -/
def generate_signal (trade_threshold take_profit_pct stop_loss_pct : ℚ)
    (ta_score : Int) (current_value_usdc percentage_change : ℚ) : Signal × Nat :=
  if current_value_usdc < trade_threshold then
    if percentage_change > take_profit_pct then (Signal.SELL, 1)
    else if ta_score ≤ -1 then (Signal.HOLD, 3)
    else taSignalOf ta_score
  else
    if percentage_change < -stop_loss_pct then (Signal.SELL, 2)
    else taSignalOf ta_score

/-- Flat first-match-wins cascade, written from the specification's words:
Rule 1 (take-profit), then Rule 2 (stop-loss), then Rule 3 (small-holding
guard), then the raw TA signal with priority 3.  Used to compare against
`generate_signal` (refinement). -/
def signalCascadeSpec (trade_threshold take_profit_pct stop_loss_pct : ℚ)
    (ta_score : Int) (current_value_usdc percentage_change : ℚ) : Signal × Nat :=
  if current_value_usdc < trade_threshold ∧ percentage_change > take_profit_pct then
    (Signal.SELL, 1)
  else if current_value_usdc ≥ trade_threshold ∧ percentage_change < -stop_loss_pct then
    (Signal.SELL, 2)
  else if current_value_usdc < trade_threshold ∧ ta_score ≤ -1 then
    (Signal.HOLD, 3)
  else
    (if ta_score ≥ 1 then Signal.BUY else if ta_score ≤ -1 then Signal.SELL else Signal.HOLD, 3)

/-- One row of the portfolio summary (columns accessed by
CreateTradePlan.generate_trade_plan and _get_liquid_funds). -/
structure PortfolioRow where
  currency : String
  balance : ℚ
  current_value_usdc : ℚ
deriving DecidableEq, Repr

/-- One row of the recommendations table (columns accessed by
CreateTradePlan.generate_trade_plan). -/
structure Recommendation where
  currency : String
  signal : Signal
deriving DecidableEq, Repr

/-- The amount field of a trade-plan entry: either a quantity or the
literal token ALL. -/
inductive TradeAmount
  | qty (q : ℚ)
  | allFunds
deriving DecidableEq, Repr

/-- The action field of a trade-plan entry. -/
inductive TradeAction
  | buy
  | sell
deriving DecidableEq, Repr

/-- One entry of the generated trade plan. -/
structure TradePlanEntry where
  action : TradeAction
  currency : String
  amount : TradeAmount
  value_usdc : ℚ
deriving DecidableEq, Repr

/-- CreateTradePlan._get_liquid_funds: the current_value_usdc of the first
portfolio row whose currency is USDC, or 0 when no such row exists. -/
def get_liquid_funds (portfolio : List PortfolioRow) : ℚ :=
  match portfolio.find? (fun p => p.currency == "USDC") with
  | some p => p.current_value_usdc
  | none => 0

/-- Body of the SELL loop of CreateTradePlan.generate_trade_plan for one
recommendation: look the currency up in the portfolio (first matching row);
skip when absent; when the current value strictly exceeds the threshold,
append a SELL of the entire balance and add the value to liquid funds. -/
def processSellRec (trade_threshold : ℚ) (portfolio : List PortfolioRow)
    (st : List TradePlanEntry × ℚ) (rec : Recommendation) : List TradePlanEntry × ℚ :=
  match portfolio.find? (fun p => p.currency == rec.currency) with
  | none => st
  | some pos =>
    if pos.current_value_usdc > trade_threshold then
      (st.1 ++ [⟨TradeAction.sell, rec.currency, TradeAmount.qty pos.balance, pos.current_value_usdc⟩],
       st.2 + pos.current_value_usdc)
    else st

/-- CreateTradePlan.generate_trade_plan: process SELL recommendations in
order, then, if liquid funds strictly exceed the threshold, append one BUY
of all liquid funds for the first BUY recommendation. -/
def generate_trade_plan (trade_threshold : ℚ) (portfolio : List PortfolioRow)
    (recs : List Recommendation) : List TradePlanEntry :=
  let lf0 := get_liquid_funds portfolio
  let sells := recs.filter (fun r => r.signal == Signal.SELL)
  let res := sells.foldl (processSellRec trade_threshold portfolio) ([], lf0)
  if res.2 > trade_threshold then
    match (recs.filter (fun r => r.signal == Signal.BUY)).head? with
    | some b => res.1 ++ [⟨TradeAction.buy, b.currency, TradeAmount.allFunds, res.2⟩]
    | none => res.1
  else res.1

/-- Declarative characterisation of one SELL recommendation, written from the
specification's words (amended to the strict comparison the code uses):
the emitted entry, when the position exists and its value strictly exceeds
the threshold, and nothing otherwise. -/
def sellEntryOf (trade_threshold : ℚ) (portfolio : List PortfolioRow)
    (rec : Recommendation) : Option TradePlanEntry :=
  match portfolio.find? (fun p => p.currency == rec.currency) with
  | some pos =>
    if pos.current_value_usdc > trade_threshold then
      some ⟨TradeAction.sell, rec.currency, TradeAmount.qty pos.balance, pos.current_value_usdc⟩
    else none
  | none => none

/-- The SELL section of the plan, declaratively: one entry per SELL
recommendation whose position qualifies, in recommendation order. -/
def planSellEntries (trade_threshold : ℚ) (portfolio : List PortfolioRow)
    (recs : List Recommendation) : List TradePlanEntry :=
  (recs.filter (fun r => r.signal == Signal.SELL)).filterMap
    (sellEntryOf trade_threshold portfolio)

/-- Total sale proceeds of a list of plan entries. -/
def planProceeds (entries : List TradePlanEntry) : ℚ :=
  entries.foldl (fun a e => a + e.value_usdc) 0

/-- Declarative form of the full plan: the SELL entries followed by at most
one BUY of all liquid funds (initial liquid funds plus sale proceeds), when
those funds strictly exceed the threshold and a BUY recommendation exists. -/
def tradePlanSpec (trade_threshold : ℚ) (portfolio : List PortfolioRow)
    (recs : List Recommendation) : List TradePlanEntry :=
  let sells := planSellEntries trade_threshold portfolio recs
  let lf := get_liquid_funds portfolio + planProceeds sells
  if lf > trade_threshold then
    match (recs.filter (fun r => r.signal == Signal.BUY)).head? with
    | some b => sells ++ [⟨TradeAction.buy, b.currency, TradeAmount.allFunds, lf⟩]
    | none => sells
  else sells

/-- One trade-ledger record (Binance myTrades shape), fields accessed by
AnalyzeTrades._generate_realized_pnl_fifo.  Quantities and prices are
Python Decimals, modelled exactly as rationals; time is epoch milliseconds. -/
structure Trade where
  time : Nat
  symbol : String
  isBuyer : Bool
  qty : ℚ
  price : ℚ
  commission : ℚ
  commissionAsset : String
deriving DecidableEq, Repr

/-- The notes appended by the FIFO engine, one constructor per
notes.append site in _generate_realized_pnl_fifo (string formatting of the
f-strings is abstracted into the payload). -/
inductive FifoNote
  | unmatchedSell (q : ℚ)
  | unmatchedBuy (q : ℚ)
  | commissionSubtracted (asset : String)
  | feesNotConverted (assets : List String)
deriving DecidableEq, Repr

/-- Per-symbol working state of the FIFO loop: the buy queue (oldest lot
first, each lot a pair of remaining quantity and unit price), the running
totals, the per-asset commission sums (association list in first-insertion
order, modelling the defaultdict), and the notes so far. -/
structure FifoState where
  buy_queue : List (ℚ × ℚ)
  realized_pnl : ℚ
  matched_sell_qty : ℚ
  total_buy_cost : ℚ
  total_sell_revenue : ℚ
  commissions : List (String × ℚ)
  notes : List FifoNote
deriving DecidableEq, Repr

/-- The empty per-symbol state. -/
def initFifoState : FifoState := ⟨[], 0, 0, 0, 0, [], []⟩

/-- Result of consuming one sell against the buy queue: the remaining queue,
the amounts accumulated by the while loop, and the final remaining
(unmatched) sell quantity. -/
structure SellOutcome where
  queue : List (ℚ × ℚ)
  pnl : ℚ
  matched : ℚ
  buyCost : ℚ
  sellValue : ℚ
  leftover : ℚ
deriving DecidableEq, Repr

/-- The while loop of the sell branch of _generate_realized_pnl_fifo:
while the remaining sell quantity is positive and lots remain, either the
head lot is fully matched (buy_qty <= remaining: pop it and continue) or
partially matched (reduce it in place; the remaining quantity drops to 0
and the loop exits). -/
def sellLoop (price : ℚ) : List (ℚ × ℚ) → ℚ → SellOutcome
  | [], r => ⟨[], 0, 0, 0, 0, r⟩
  | (bq, bp) :: rest, r =>
    if 0 < r then
      if bq ≤ r then
        let out := sellLoop price rest (r - bq)
        ⟨out.queue, bq * (price - bp) + out.pnl, bq + out.matched,
         bq * bp + out.buyCost, bq * price + out.sellValue, out.leftover⟩
      else
        ⟨(bq - r, bp) :: rest, r * (price - bp), r, r * bp, r * price, 0⟩
    else ⟨(bq, bp) :: rest, 0, 0, 0, 0, r⟩

/-- Realized PnL of one sell, written from the specification's words:
while remaining_sell_qty > 0 and lots remain, matched = min(head remaining,
remaining sell), the step PnL is matched times (sell price minus lot unit
price); a partially consumed head leaves remaining = 0, so the loop exits
contributing nothing further. -/
def fifoSpecPnl (price : ℚ) : List (ℚ × ℚ) → ℚ → ℚ
  | [], _ => 0
  | (bq, bp) :: rest, r =>
    if 0 < r then
      min bq r * (price - bp) +
        (if bq ≤ r then fifoSpecPnl price rest (r - bq) else 0)
    else 0

/-- The commission defaultdict update: add the amount to an existing asset
entry or append a fresh one at the end. -/
def addCommission : List (String × ℚ) → String → ℚ → List (String × ℚ)
  | [], a, c => [(a, c)]
  | (b, v) :: rest, a, c =>
    if b == a then (b, v + c) :: rest else (b, v) :: addCommission rest a c

/-- Look a commission asset up in the association list. -/
def lookupComm (cs : List (String × ℚ)) (a : String) : Option ℚ :=
  (cs.find? (fun kv => kv.1 == a)).map (fun kv => kv.2)

/-- One iteration of the per-trade loop of _generate_realized_pnl_fifo:
record a positive commission, then either push a buy lot to the queue tail
or run the sell-matching loop, noting any unmatched sell quantity. -/
def processTrade (st : FifoState) (t : Trade) : FifoState :=
  let st1 :=
    if 0 < t.commission then
      { st with commissions := addCommission st.commissions t.commissionAsset t.commission }
    else st
  if t.isBuyer then
    { st1 with buy_queue := st1.buy_queue ++ [(t.qty, t.price)] }
  else
    let out := sellLoop t.price st1.buy_queue t.qty
    { st1 with
      buy_queue := out.queue,
      realized_pnl := st1.realized_pnl + out.pnl,
      matched_sell_qty := st1.matched_sell_qty + out.matched,
      total_buy_cost := st1.total_buy_cost + out.buyCost,
      total_sell_revenue := st1.total_sell_revenue + out.sellValue,
      notes := st1.notes ++
        (if 0 < out.leftover then [FifoNote.unmatchedSell out.leftover] else []) }

/-- AnalyzeTrades._extract_quote_asset: the first common Binance quote asset
the symbol ends with, or none. -/
def strEndsWith (s suf : String) : Bool :=
  s.data.reverse.take suf.data.length == suf.data.reverse

/-- The candidate quote assets, in the order the source tries them. -/
def commonQuotes : List String :=
  ["USDT", "USDC", "BUSD", "BTC", "ETH", "BNB", "EUR", "GBP"]

/-- AnalyzeTrades._extract_quote_asset. -/
def extract_quote_asset (symbol : String) : Option String :=
  commonQuotes.find? (fun q => strEndsWith symbol q)

/-- One result row of realized_pnl_fifo_by_symbol. -/
structure RealizedPnlRow where
  symbol : String
  realized_pnl_quote : ℚ
  matched_sell_qty : ℚ
  avg_buy_price : ℚ
  avg_sell_price : ℚ
  notes : List FifoNote
deriving DecidableEq, Repr

/-- The branch of finalisation taken when no quote asset was extracted or no
commission was charged in it: the gross PnL is kept and, when any commission
exists, a single note lists the fee assets as not converted. -/
def finalizeNoQuote (symbol : String) (st : FifoState)
    (avg_buy avg_sell : ℚ) (notes1 : List FifoNote) : RealizedPnlRow :=
  ⟨symbol, st.realized_pnl, st.matched_sell_qty, avg_buy, avg_sell,
    notes1 ++
      (if st.commissions.isEmpty then []
       else [FifoNote.feesNotConverted (st.commissions.map (fun kv => kv.1))])⟩

/-- End-of-symbol processing of _generate_realized_pnl_fifo: note unmatched
buy lots, compute average prices (0 when nothing matched), and subtract the
quote-asset commission from gross PnL when one was actually charged. -/
def finalizeSymbol (symbol : String) (st : FifoState) : RealizedPnlRow :=
  let notes1 := st.notes ++
    (if st.buy_queue.isEmpty then []
     else [FifoNote.unmatchedBuy ((st.buy_queue.map (fun l => l.1)).foldl (fun a b => a + b) 0)])
  let avg_buy := if 0 < st.matched_sell_qty then st.total_buy_cost / st.matched_sell_qty else 0
  let avg_sell := if 0 < st.matched_sell_qty then st.total_sell_revenue / st.matched_sell_qty else 0
  match extract_quote_asset symbol with
  | some qa =>
    match lookupComm st.commissions qa with
    | some c =>
      ⟨symbol, st.realized_pnl - c, st.matched_sell_qty, avg_buy, avg_sell,
        notes1 ++ [FifoNote.commissionSubtracted qa]⟩
    | none => finalizeNoQuote symbol st avg_buy avg_sell notes1
  | none => finalizeNoQuote symbol st avg_buy avg_sell notes1

/-- Chronological order on trades (the sort key lambda t: t.get(time, 0)). -/
def timeLe (a b : Trade) : Prop := a.time ≤ b.time

instance : DecidableRel timeLe := fun a b => inferInstanceAs (Decidable (a.time ≤ b.time))

instance : IsTotal Trade timeLe := ⟨fun a b => Nat.le_total a.time b.time⟩

instance : IsTrans Trade timeLe := ⟨fun _ _ _ h h' => Nat.le_trans h h'⟩

/-- The per-symbol stable sort by time (Python list.sort with a time key is
stable; any stable sort by the same key gives the same list, modelled here
with insertion sort). -/
def sortTrades (trades : List Trade) : List Trade := List.insertionSort timeLe trades

/-- Accumulate the symbol grouping keys: skip a falsy (empty) symbol and
keep first-occurrence order (the defaultdict insertion order). -/
def addSym (acc : List String) (s : String) : List String :=
  if s == "" then acc else if s ∈ acc then acc else acc ++ [s]

/-- The symbols of the ledger in first-occurrence order, empty symbols
skipped. -/
def symbolsIn (trades : List Trade) : List String :=
  trades.foldl (fun acc t => addSym acc t.symbol) []

/-- The trades of one symbol, in ledger order. -/
def tradesFor (trades : List Trade) (s : String) : List Trade :=
  trades.filter (fun t => t.symbol == s)

/-- Full per-symbol computation: sort that symbol's trades by time, run the
FIFO loop, finalise. -/
def runSymbol (trades : List Trade) (s : String) : RealizedPnlRow :=
  finalizeSymbol s ((sortTrades (tradesFor trades s)).foldl processTrade initFifoState)

/-- AnalyzeTrades._generate_realized_pnl_fifo: group trades by symbol,
sort each group chronologically, and compute one result row per symbol in
first-occurrence order. -/
def generate_realized_pnl_fifo (trades : List Trade) : List RealizedPnlRow :=
  (symbolsIn trades).map (runSymbol trades)

/-- The engine's result row for one symbol, when present. -/
def pnlResultFor (trades : List Trade) (s : String) : Option RealizedPnlRow :=
  (generate_realized_pnl_fifo trades).find? (fun r => r.symbol == s)

/-- Extended rational modelling the float special values that the pandas RSI
pipeline can produce: NaN, the two infinities, and finite values (exact,
since no rounding-sensitive behaviour is claimed). -/
inductive ERat
  | nan
  | inf
  | ninf
  | val (q : ℚ)
deriving DecidableEq, Repr

/-- IEEE-style addition on extended rationals. -/
def ERat.add : ERat → ERat → ERat
  | .nan, _ => .nan
  | _, .nan => .nan
  | .inf, .ninf => .nan
  | .ninf, .inf => .nan
  | .inf, _ => .inf
  | _, .inf => .inf
  | .ninf, _ => .ninf
  | _, .ninf => .ninf
  | .val x, .val y => .val (x + y)

/-- IEEE-style subtraction on extended rationals. -/
def ERat.sub : ERat → ERat → ERat
  | .nan, _ => .nan
  | _, .nan => .nan
  | .inf, .inf => .nan
  | .ninf, .ninf => .nan
  | .inf, _ => .inf
  | _, .inf => .ninf
  | .ninf, _ => .ninf
  | _, .ninf => .inf
  | .val x, .val y => .val (x - y)

/-- IEEE-style division on extended rationals: a finite value divided by
zero gives a signed infinity, zero by zero gives NaN (signed zeroes are
collapsed to 0, which the RSI pipeline never distinguishes). -/
def ERat.div : ERat → ERat → ERat
  | .nan, _ => .nan
  | _, .nan => .nan
  | .inf, .inf => .nan
  | .inf, .ninf => .nan
  | .ninf, .inf => .nan
  | .ninf, .ninf => .nan
  | .inf, .val b => if 0 ≤ b then .inf else .ninf
  | .ninf, .val b => if 0 ≤ b then .ninf else .inf
  | .val _, .inf => .val 0
  | .val _, .ninf => .val 0
  | .val a, .val b =>
    if b = 0 then (if a = 0 then .nan else if 0 < a then .inf else .ninf)
    else .val (a / b)

/-- The comparison delta > 0 as evaluated by pandas: False on NaN. -/
def ERat.posB : ERat → Bool
  | .val x => decide (0 < x)
  | .inf => true
  | _ => false

/-- The comparison delta < 0 as evaluated by pandas: False on NaN. -/
def ERat.negB : ERat → Bool
  | .val x => decide (x < 0)
  | .ninf => true
  | _ => false

/-- Negation on extended rationals. -/
def ERat.neg : ERat → ERat
  | .nan => .nan
  | .inf => .ninf
  | .ninf => .inf
  | .val x => .val (-x)

/-- prices.diff(): NaN first, then consecutive differences. -/
def diffs : List ℚ → List ERat
  | [] => []
  | p :: ps => ERat.nan :: List.zipWith (fun a b => ERat.val (a - b)) ps (p :: ps)

/-- delta.where(delta > 0, 0): keep positive deltas, everything else
(including the leading NaN, since NaN > 0 is False) becomes 0. -/
def gainsOf (deltas : List ERat) : List ERat :=
  deltas.map (fun d => if d.posB then d else ERat.val 0)

/-- -delta.where(delta < 0, 0): the magnitudes of negative deltas,
everything else becomes 0. -/
def lossesOf (deltas : List ERat) : List ERat :=
  deltas.map (fun d => if d.negB then d.neg else ERat.val 0)

/-- Sum of a list of extended rationals (NaN-propagating). -/
def sumE (l : List ERat) : ERat := l.foldl ERat.add (ERat.val 0)

/-- Series.rolling(window=w).mean(): positions with fewer than w samples are
NaN; otherwise the mean of the w-sample window, NaN when the window holds a
NaN (min_periods defaults to the window size). -/
def rollingMean (w : Nat) (l : List ERat) : List ERat :=
  (List.range l.length).map (fun i =>
    if i + 1 < w then ERat.nan
    else ERat.div (sumE ((l.drop (i + 1 - w)).take w)) (ERat.val (w : ℚ)))

/-- The elementwise RSI formula: 100 - 100 / (1 + rs) with rs = gain / loss. -/
def rsiPoint (g l : ERat) : ERat :=
  ERat.sub (ERat.val 100)
    (ERat.div (ERat.val 100) (ERat.add (ERat.val 1) (ERat.div g l)))

/-- The rolling average gain series of TechnicalAnalysis._calculate_rsi. -/
def avgGain (prices : List ℚ) (period : Nat) : List ERat :=
  rollingMean period (gainsOf (diffs prices))

/-- The rolling average loss series of TechnicalAnalysis._calculate_rsi. -/
def avgLoss (prices : List ℚ) (period : Nat) : List ERat :=
  rollingMean period (lossesOf (diffs prices))

/-- TechnicalAnalysis._calculate_rsi: rs = avg gain / avg loss elementwise,
RSI = 100 - 100/(1+rs). -/
def calculate_rsi (prices : List ℚ) (period : Nat) : List ERat :=
  List.zipWith rsiPoint (avgGain prices period) (avgLoss prices period)

/-- A scoring-term input pair that is neutral in the specification's sense:
equal values, or at least one undefined input. -/
def pairNeutral (a b : Option ℚ) : Prop :=
  a = none ∨ b = none ∨ ∃ x, a = some x ∧ b = some x

/-- Matched quantity of one sell, written from the specification's words
(matched = min(head remaining, remaining sell) at every step). -/
def fifoSpecMatched : List (ℚ × ℚ) → ℚ → ℚ
  | [], _ => 0
  | (bq, _) :: rest, r =>
    if 0 < r then
      min bq r + (if bq ≤ r then fifoSpecMatched rest (r - bq) else 0)
    else 0

/-- Ledger of the first FIFO exactness example: buy 1 at 50000, then sell
1 at 55000, zero commission. -/
def fifoExample1 : List Trade :=
  [⟨1, "BTCUSDT", true, 1, 50000, 0, "USDT"⟩,
   ⟨2, "BTCUSDT", false, 1, 55000, 0, "USDT"⟩]

/-- Ledger of the second FIFO exactness example: buy 1 at 50000 and 1 at
52000, then sell 1.5 at 55000, zero commission. -/
def fifoExample2 : List Trade :=
  [⟨1, "BTCUSDT", true, 1, 50000, 0, "USDT"⟩,
   ⟨2, "BTCUSDT", true, 1, 52000, 0, "USDT"⟩,
   ⟨3, "BTCUSDT", false, (3 : ℚ)/2, 55000, 0, "USDT"⟩]

/-- Ledger with commissions in both the quote asset (USDT) and a foreign
asset (BNB) on the same symbol. -/
def mixedCommissionLedger : List Trade :=
  [⟨1, "BTCUSDT", true, 1, 50000, 1, "BNB"⟩,
   ⟨2, "BTCUSDT", false, 1, 55000, 55, "USDT"⟩]

/-- A ledger that is not in chronological order: the sell (time 2) is listed
before the buy (time 1). -/
def unorderedLedger : List Trade :=
  [⟨2, "BTCUSDT", false, 1, 55000, 0, "USDT"⟩,
   ⟨1, "BTCUSDT", true, 1, 50000, 0, "USDT"⟩]

/-- An all-bullish TA row: RSI 25, EMA_12 2 over EMA_26 1, MACD 2 over
signal 1, Close 2 over EMA_200 1. -/
def rowBull : TARow := ⟨some 2, some 25, some 2, none, some 1, none, some 1, some 2, some 1⟩

/-- An all-bearish TA row: RSI 75 and every comparison reversed. -/
def rowBear : TARow := ⟨some 1, some 75, some 1, none, some 2, none, some 2, some 1, some 2⟩

/-- An all-neutral TA row: RSI 50, every compared pair equal. -/
def rowNeut : TARow := ⟨some 1, some 50, some 3, none, some 3, none, some 1, some 2, some 2⟩

/-- Helper to build a TA2 indicator row with the fields TA2 reads. -/
def mkTa2Row (c r e21 e50 e200 m ms : ℚ) : TARow :=
  ⟨some c, some r, none, some e21, none, some e50, some e200, some m, some ms⟩

/-- Nine TA2 rows whose entry conditions all hold on the last row while its
own RSI (55) is well above 45; only row index 3 of the lookback window dips
below 45. -/
def ta2BuyRows : List TARow :=
  [mkTa2Row 100 50 90 95 80 1 0,
   mkTa2Row 100 50 90 95 80 1 0,
   mkTa2Row 100 50 90 95 80 1 0,
   mkTa2Row 100 40 90 95 80 1 0,
   mkTa2Row 100 50 90 95 80 1 0,
   mkTa2Row 100 50 90 95 80 1 0,
   mkTa2Row 100 50 90 95 80 1 0,
   mkTa2Row 100 48 90 95 80 1 0,
   mkTa2Row 100 55 90 95 80 1 0]

/-- Nine TA2 rows identical to ta2BuyRows except that the last row has
MACD 0 below MACD_Signal 1 (every entry condition otherwise satisfiable). -/
def ta2SellRows : List TARow :=
  [mkTa2Row 100 50 90 95 80 1 0,
   mkTa2Row 100 50 90 95 80 1 0,
   mkTa2Row 100 50 90 95 80 1 0,
   mkTa2Row 100 40 90 95 80 1 0,
   mkTa2Row 100 50 90 95 80 1 0,
   mkTa2Row 100 50 90 95 80 1 0,
   mkTa2Row 100 50 90 95 80 1 0,
   mkTa2Row 100 48 90 95 80 1 0,
   mkTa2Row 100 55 90 95 80 0 1]

/-- A portfolio without any USDC row. -/
def portfolioNoUsdc : List PortfolioRow :=
  [⟨"BTC", 2, 500⟩, ⟨"ETH", 1, 50⟩]

/-- Recommendations used by the liquid-funds witnesses. -/
def recsSellBuy : List Recommendation :=
  [⟨"BTC", Signal.SELL⟩, ⟨"ETH", Signal.BUY⟩]

/-- A FIFO state whose commissions hold both a foreign (BNB) and the quote
(USDT) asset. -/
def stateMixedComm : FifoState := ⟨[], 5000, 1, 50000, 55000, [("BNB", 1), ("USDT", 55)], []⟩

/-- A FIFO state whose only commission is in a foreign asset (BNB). -/
def stateForeignComm : FifoState := ⟨[], 5000, 1, 50000, 55000, [("BNB", 1)], []⟩

/-- Strictly rising close series of length 15 (every delta is +1). -/
def risingPrices : List ℚ := (List.range 15).map (fun i => (100 : ℚ) + i)

/-- Constant close series of length 14 (every delta is 0). -/
def flatPrices : List ℚ := List.replicate 14 (100 : ℚ)

lemma taScoreRsi_mem (row : TARow) : -1 ≤ taScoreRsi row ∧ taScoreRsi row ≤ 1 := by
  unfold taScoreRsi
  cases row.rsi_14 with
  | none => exact ⟨by norm_num, by norm_num⟩
  | some r =>
    dsimp only
    split_ifs <;> omega

lemma taScorePair_mem (a b : Option ℚ) : -1 ≤ taScorePair a b ∧ taScorePair a b ≤ 1 := by
  unfold taScorePair
  cases a with
  | none => exact ⟨by norm_num, by norm_num⟩
  | some x =>
    cases b with
    | none => exact ⟨by norm_num, by norm_num⟩
    | some y =>
      dsimp only
      split_ifs <;> omega

lemma taScorePair_neutral (a b : Option ℚ) (h : pairNeutral a b) : taScorePair a b = 0 := by
  rcases h with h | h | ⟨x, hx, hy⟩
  · simp [taScorePair, h]
  · cases a <;> simp [taScorePair, h]
  · simp [taScorePair, hx, hy]

/-- C5: the TA1 score always lies in the interval from -4 to 4; a row
satisfying all four bullish conditions scores exactly 4, an all-bearish row
scores exactly -4, and a row on which every term has equal or undefined
inputs (RSI in the neutral band or undefined) scores 0. -/
theorem c5_ta1_score_range (row : TARow) :
    (-4 ≤ calculate_ta_score row ∧ calculate_ta_score row ≤ 4)
    ∧ (∀ r e12 e26 m ms c e200 : ℚ,
        row.rsi_14 = some r → r < 30 →
        row.ema_12 = some e12 → row.ema_26 = some e26 → e26 < e12 →
        row.macd = some m → row.macd_signal = some ms → ms < m →
        row.close = some c → row.ema_200 = some e200 → e200 < c →
        calculate_ta_score row = 4)
    ∧ (∀ r e12 e26 m ms c e200 : ℚ,
        row.rsi_14 = some r → 70 < r →
        row.ema_12 = some e12 → row.ema_26 = some e26 → e12 < e26 →
        row.macd = some m → row.macd_signal = some ms → m < ms →
        row.close = some c → row.ema_200 = some e200 → c < e200 →
        calculate_ta_score row = -4)
    ∧ ((row.rsi_14 = none ∨ ∃ r, row.rsi_14 = some r ∧ 30 ≤ r ∧ r ≤ 70) →
        pairNeutral row.ema_12 row.ema_26 →
        pairNeutral row.macd row.macd_signal →
        pairNeutral row.close row.ema_200 →
        calculate_ta_score row = 0) := by
  refine ⟨?_, ?_, ?_, ?_⟩
  · obtain ⟨a1, a2⟩ := taScoreRsi_mem row
    obtain ⟨b1, b2⟩ := taScorePair_mem row.ema_12 row.ema_26
    obtain ⟨d1, d2⟩ := taScorePair_mem row.macd row.macd_signal
    obtain ⟨e1, e2⟩ := taScorePair_mem row.close row.ema_200
    unfold calculate_ta_score
    omega
  · intro r e12 e26 m ms c e200 h1 h2 h3 h4 h5 h6 h7 h8 h9 h10 h11
    simp [calculate_ta_score, taScoreRsi, taScorePair, h1, h2, h3, h4, h5, h6, h7, h8, h9,
      h10, h11]
  · intro r e12 e26 m ms c e200 h1 h2 h3 h4 h5 h6 h7 h8 h9 h10 h11
    have h2' : ¬ r < 30 := by linarith
    have h5' : ¬ e26 < e12 := by linarith
    have h8' : ¬ ms < m := by linarith
    have h11' : ¬ e200 < c := by linarith
    simp [calculate_ta_score, taScoreRsi, taScorePair, h1, h2, h2', h3, h4, h5, h5', h6, h7,
      h8, h8', h9, h10, h11, h11']
  · intro h1 h2 h3 h4
    have e1 := taScorePair_neutral _ _ h2
    have e2 := taScorePair_neutral _ _ h3
    have e3 := taScorePair_neutral _ _ h4
    have e0 : taScoreRsi row = 0 := by
      rcases h1 with h | ⟨r, hr, hlo, hhi⟩
      · simp [taScoreRsi, h]
      · have hlo' : ¬ r < 30 := by linarith
        have hhi' : ¬ r > 70 := by linarith
        simp [taScoreRsi, hr, hlo', hhi']
    unfold calculate_ta_score
    omega

/-- Witness for c5_ta1_score_range at concrete bullish, bearish and neutral
rows. -/
theorem c5_ta1_score_range_witness :
    calculate_ta_score rowBull = 4
    ∧ calculate_ta_score rowBear = -4
    ∧ calculate_ta_score rowNeut = 0 := by
  refine ⟨?_, ?_, ?_⟩
  · exact (c5_ta1_score_range rowBull).2.1 25 2 1 2 1 2 1 rfl (by norm_num) rfl rfl
      (by norm_num) rfl rfl (by norm_num) rfl rfl (by norm_num)
  · exact (c5_ta1_score_range rowBear).2.2.1 75 1 2 1 2 1 2 rfl (by norm_num) rfl rfl
      (by norm_num) rfl rfl (by norm_num) rfl rfl (by norm_num)
  · exact (c5_ta1_score_range rowNeut).2.2.2
      (Or.inr ⟨50, rfl, by norm_num, by norm_num⟩)
      (Or.inr (Or.inr ⟨3, rfl, rfl⟩))
      (Or.inr (Or.inr ⟨2, rfl, rfl⟩))
      (Or.inr (Or.inr ⟨1, rfl, rfl⟩))

/-- C2: the nested override logic of _generate_signal equals the flat
first-match-wins cascade Rule 1, Rule 2, Rule 3, raw TA signal. -/
theorem c2_override_rules_cascade (th tp sl : ℚ) (ts : Int) (cv pc : ℚ) :
    generate_signal th tp sl ts cv pc = signalCascadeSpec th tp sl ts cv pc := by
  unfold generate_signal signalCascadeSpec taSignalOf
  by_cases h1 : cv < th
  · have h1' : ¬ cv ≥ th := not_le.mpr h1
    by_cases h2 : pc > tp
    · simp [h1, h2]
    · by_cases h3 : ts ≤ -1
      · simp [h1, h1', h2, h3]
      · by_cases h4 : ts ≥ 1
        · simp [h1, h1', h2, h3, h4]
        · simp [h1, h1', h2, h3, h4]
  · have h1' : cv ≥ th := not_lt.mp h1
    by_cases h2 : pc < -sl
    · simp [h1, h1', h2]
    · by_cases h3 : ts ≥ 1
      · simp [h1, h1', h2, h3]
      · by_cases h4 : ts ≤ -1
        · simp [h1, h1', h2, h3, h4]
        · simp [h1, h1', h2, h3, h4]

lemma any_isNone_map_some (ws : List ℚ) :
    ((ws.map some).any (fun o => o.isNone)) = false := by
  simp [List.any_map, Function.comp]

lemma filterMap_id_map_some (ws : List ℚ) : (ws.map some).filterMap id = ws := by
  induction ws with
  | nil => rfl
  | cons x xs ih => simp [List.filterMap_cons, ih]

lemma foldl_min_le_init (l : List ℚ) : ∀ a : ℚ, l.foldl min a ≤ a := by
  induction l with
  | nil => intro a; exact le_refl a
  | cons y ys ih =>
    intro a
    calc (y :: ys).foldl min a = ys.foldl min (min a y) := rfl
    _ ≤ min a y := ih (min a y)
    _ ≤ a := min_le_left a y

lemma foldl_min_le_mem (l : List ℚ) : ∀ (a w : ℚ), w ∈ l → l.foldl min a ≤ w := by
  induction l with
  | nil => intro a w hw; cases hw
  | cons y ys ih =>
    intro a w hw
    rcases List.mem_cons.mp hw with h | h
    · subst h
      calc (w :: ys).foldl min a = ys.foldl min (min a w) := rfl
      _ ≤ min a w := foldl_min_le_init ys (min a w)
      _ ≤ w := min_le_right a w
    · exact ih (min a y) w h

lemma minQ_lt (ws : List ℚ) (w : ℚ) (hmem : w ∈ ws) (hlt : w < 45) :
    ∃ mn, minQ ws = some mn ∧ mn < 45 := by
  cases ws with
  | nil => cases hmem
  | cons x xs =>
    refine ⟨xs.foldl min x, rfl, ?_⟩
    rcases List.mem_cons.mp hmem with h | h
    · subst h
      exact lt_of_le_of_lt (foldl_min_le_init xs w) hlt
    · exact lt_of_le_of_lt (foldl_min_le_mem xs x w h) hlt

/-- C4: TA2 exit precedence.  Whenever the latest row has MACD strictly
below MACD_Signal (and the table is long enough for TA2 to evaluate at
all), the TA2 signal is SELL (-1), regardless of every other condition. -/
theorem c4_ta2_exit_precedence (flag : Bool) (rows : List TARow) (last : TARow) (m ms : ℚ)
    (h9 : 9 ≤ rows.length)
    (hlast : rows.get? (rows.length - 1) = some last)
    (hm : last.macd = some m) (hs : last.macd_signal = some ms) (hlt : m < ms) :
    calculate_ta2_signal flag rows = -1 := by
  have h2lt : rows.length - 2 < rows.length := by omega
  have n1 : ¬ rows.length < 9 := by omega
  have hget2 := List.get?_eq_get h2lt
  simp only [List.get?_eq_getElem?] at hlast hget2
  simp [calculate_ta2_signal, n1, hlast, hget2, hm, hs, hlt]

/-- Witness for c4_ta2_exit_precedence on a concrete nine-row table whose
entry conditions are all independently satisfiable. -/
theorem c4_ta2_exit_precedence_witness : calculate_ta2_signal false ta2SellRows = -1 :=
  c4_ta2_exit_precedence false ta2SellRows (mkTa2Row 100 55 90 95 80 0 1) 0 1
    (by norm_num [ta2SellRows]) rfl rfl rfl (by norm_num)

/-- C6: the TA2 pullback check reads only the 8 rows before the entry
candle.  If every entry condition holds on the last row, the window minimum
is below 45, and the entry candle's own RSI is not below 45, the signal is
still BUY (with the EMA-50 filter disabled). -/
theorem c6_ta2_lookback_excludes_entry (rows : List TARow) (last prev : TARow)
    (m ms c e200 e21 rt rp : ℚ) (ws : List ℚ)
    (h9 : 9 ≤ rows.length)
    (hlast : rows.get? (rows.length - 1) = some last)
    (hprev : rows.get? (rows.length - 2) = some prev)
    (hm : last.macd = some m) (hs : last.macd_signal = some ms) (hgt : ms < m)
    (hc : last.close = some c) (h200 : last.ema_200 = some e200) (hce : e200 < c)
    (h21 : last.ema_21 = some e21) (hc21 : e21 < c)
    (hrt : last.rsi_14 = some rt) (hrp : prev.rsi_14 = some rp)
    (hcross1 : rp ≤ 50) (hcross2 : 50 < rt)
    (hrt45 : 45 ≤ rt)
    (hwin : ((rows.drop (rows.length - 9)).take 8).map (fun r => r.rsi_14) = ws.map some)
    (hmin : ∃ w ∈ ws, w < 45) :
    calculate_ta2_signal false rows = 1 := by
  have n1 : ¬ rows.length < 9 := by omega
  have n2 : ¬ m < ms := lt_asymm hgt
  have n3 : ¬ c ≤ e200 := not_le.mpr hce
  have n4 : ¬ m ≤ ms := not_le.mpr hgt
  have n5 : ¬ c ≤ e21 := not_le.mpr hc21
  have n6 : ¬ rp > 50 := not_lt.mpr hcross1
  have n7 : ¬ rt ≤ 50 := not_le.mpr hcross2
  obtain ⟨w, hwmem, hw45⟩ := hmin
  obtain ⟨mn, hmn, hmnlt⟩ := minQ_lt ws w hwmem hw45
  have n8 : ¬ 45 ≤ mn := not_le.mpr hmnlt
  simp only [List.get?_eq_getElem?] at hlast hprev
  simp only [List.map_take, List.map_drop] at hwin
  simp [calculate_ta2_signal, n1, hlast, hprev, hm, hs, n2, hc, h200, h21, hrt, hrp,
    n3, n4, n5, n6, n7, hwin, filterMap_id_map_some, hmn, n8]

/-- Witness for c6_ta2_lookback_excludes_entry on a concrete nine-row table:
the entry candle's RSI is 55 while the window minimum 40 sits at window
index 3. -/
theorem c6_ta2_lookback_excludes_entry_witness : calculate_ta2_signal false ta2BuyRows = 1 :=
  c6_ta2_lookback_excludes_entry ta2BuyRows (mkTa2Row 100 55 90 95 80 1 0)
    (mkTa2Row 100 48 90 95 80 1 0) 1 0 100 80 90 55 48
    [50, 50, 50, 40, 50, 50, 50, 48]
    (by norm_num [ta2BuyRows]) rfl rfl rfl rfl (by norm_num) rfl rfl (by norm_num)
    rfl (by norm_num) rfl rfl (by norm_num) (by norm_num) (by norm_num) rfl
    ⟨40, by norm_num, by norm_num⟩

lemma planProceeds_foldl (l : List TradePlanEntry) :
    ∀ a : ℚ, l.foldl (fun x e => x + e.value_usdc) a = a + planProceeds l := by
  induction l with
  | nil => intro a; simp [planProceeds]
  | cons e l ih =>
    intro a
    show l.foldl _ (a + e.value_usdc) = a + planProceeds (e :: l)
    have hc : planProceeds (e :: l) = e.value_usdc + planProceeds l := by
      show l.foldl _ ((0 : ℚ) + e.value_usdc) = _
      rw [ih ((0 : ℚ) + e.value_usdc)]
      ring
    rw [ih (a + e.value_usdc), hc]
    ring

lemma planProceeds_cons (e : TradePlanEntry) (l : List TradePlanEntry) :
    planProceeds (e :: l) = e.value_usdc + planProceeds l := by
  show l.foldl _ ((0 : ℚ) + e.value_usdc) = _
  rw [planProceeds_foldl l ((0 : ℚ) + e.value_usdc)]
  ring

lemma processSellRec_eq (th : ℚ) (pf : List PortfolioRow)
    (st : List TradePlanEntry × ℚ) (r : Recommendation) :
    processSellRec th pf st r =
      match sellEntryOf th pf r with
      | some e => (st.1 ++ [e], st.2 + e.value_usdc)
      | none => st := by
  unfold processSellRec sellEntryOf
  cases pf.find? (fun p => p.currency == r.currency) with
  | none => rfl
  | some pos =>
    dsimp only
    split_ifs <;> rfl

lemma foldl_processSellRec (th : ℚ) (pf : List PortfolioRow) :
    ∀ (sells : List Recommendation) (acc : List TradePlanEntry) (lf : ℚ),
    sells.foldl (processSellRec th pf) (acc, lf) =
      (acc ++ sells.filterMap (sellEntryOf th pf),
       lf + planProceeds (sells.filterMap (sellEntryOf th pf))) := by
  intro sells
  induction sells with
  | nil =>
    intro acc lf
    simp [planProceeds]
  | cons r rs ih =>
    intro acc lf
    rw [List.foldl_cons, processSellRec_eq th pf (acc, lf) r, List.filterMap_cons]
    cases h : sellEntryOf th pf r with
    | none =>
      dsimp only
      exact ih acc lf
    | some e =>
      dsimp only
      rw [ih (acc ++ [e]) (lf + e.value_usdc), planProceeds_cons]
      simp only [Prod.mk.injEq]
      constructor
      · simp
      · ring

/-- C3 (amended): the trade plan is exactly the declarative form: one SELL
entry of the full held balance per SELL recommendation whose position
exists and whose current value is strictly greater than the threshold (its
value added to liquid funds), in recommendation order, followed by at most
one BUY of all liquid funds. -/
theorem c3_sell_emission_strict (th : ℚ) (pf : List PortfolioRow)
    (recs : List Recommendation) :
    generate_trade_plan th pf recs = tradePlanSpec th pf recs := by
  simp only [generate_trade_plan, tradePlanSpec]
  rw [foldl_processSellRec th pf _ [] (get_liquid_funds pf)]
  simp [planSellEntries]

/-- C3 counterexample: a position whose current value equals the threshold
exactly.  The claim (emission when the value is greater or equal) demands a
SELL entry; the code compares strictly and emits no trade at all. -/
theorem c3_threshold_counterexample :
    (100 : ℚ) ≥ 100 ∧
    generate_trade_plan 100 [⟨"BTC", 1, 100⟩] [⟨"BTC", Signal.SELL⟩] = [] := by
  constructor
  · norm_num
  · decide

/-- C10: without a USDC row the plan builder treats liquid funds as 0 and
still works: SELL entries are emitted as usual, and the BUY is emitted
exactly when the accumulated sale proceeds alone exceed the threshold. -/
theorem c10_no_usdc_zero_liquid_funds (th : ℚ) (pf : List PortfolioRow)
    (recs : List Recommendation)
    (h : ∀ p ∈ pf, p.currency ≠ "USDC") :
    get_liquid_funds pf = 0 ∧
    generate_trade_plan th pf recs =
      (if planProceeds (planSellEntries th pf recs) > th then
        match (recs.filter (fun r => r.signal == Signal.BUY)).head? with
        | some b => planSellEntries th pf recs ++
            [⟨TradeAction.buy, b.currency, TradeAmount.allFunds,
              planProceeds (planSellEntries th pf recs)⟩]
        | none => planSellEntries th pf recs
       else planSellEntries th pf recs) := by
  have hfind : pf.find? (fun p => p.currency == "USDC") = none := by
    rw [List.find?_eq_none]
    intro p hp
    simpa using h p hp
  have hlf : get_liquid_funds pf = 0 := by
    rw [get_liquid_funds, hfind]
  refine ⟨hlf, ?_⟩
  simp only [generate_trade_plan]
  rw [foldl_processSellRec th pf _ [] (get_liquid_funds pf), hlf]
  simp [planSellEntries]

/-- Witness for c10_no_usdc_zero_liquid_funds on a concrete portfolio
holding only BTC and ETH. -/
theorem c10_no_usdc_zero_liquid_funds_witness :
    get_liquid_funds portfolioNoUsdc = 0 ∧
    generate_trade_plan 100 portfolioNoUsdc recsSellBuy =
      (if planProceeds (planSellEntries 100 portfolioNoUsdc recsSellBuy) > 100 then
        match (recsSellBuy.filter (fun r => r.signal == Signal.BUY)).head? with
        | some b => planSellEntries 100 portfolioNoUsdc recsSellBuy ++
            [⟨TradeAction.buy, b.currency, TradeAmount.allFunds,
              planProceeds (planSellEntries 100 portfolioNoUsdc recsSellBuy)⟩]
        | none => planSellEntries 100 portfolioNoUsdc recsSellBuy
       else planSellEntries 100 portfolioNoUsdc recsSellBuy) :=
  c10_no_usdc_zero_liquid_funds 100 portfolioNoUsdc recsSellBuy (by decide)

/-- C1: the sell branch of the FIFO engine implements exact FIFO lot
matching: its realized PnL and matched quantity equal the specification's
min-based step description, and the two concrete exactness examples hold
(5000 quote PnL with matched quantity 1, and gross PnL 6500 for the
partial-lot case). -/
theorem c1_fifo_lot_matching :
    (∀ (queue : List (ℚ × ℚ)) (p r : ℚ),
        (sellLoop p queue r).pnl = fifoSpecPnl p queue r
        ∧ (sellLoop p queue r).matched = fifoSpecMatched queue r)
    ∧ pnlResultFor fifoExample1 "BTCUSDT" = some ⟨"BTCUSDT", 5000, 1, 50000, 55000, []⟩
    ∧ (pnlResultFor fifoExample2 "BTCUSDT").map
        (fun row => (row.realized_pnl_quote, row.matched_sell_qty)) = some (6500, 3/2) := by
  refine ⟨?_, ?_, ?_⟩
  · intro queue
    induction queue with
    | nil =>
      intro p r
      constructor <;> simp [sellLoop, fifoSpecPnl, fifoSpecMatched]
    | cons hd rest ih =>
      intro p r
      obtain ⟨bq, bp⟩ := hd
      by_cases hr : 0 < r
      · by_cases hbq : bq ≤ r
        · constructor
          · simp [sellLoop, fifoSpecPnl, hr, hbq, min_eq_left hbq, (ih p (r - bq)).1]
          · simp [sellLoop, fifoSpecMatched, hr, hbq, min_eq_left hbq, (ih p (r - bq)).2]
        · have hmin : min bq r = r := min_eq_right (le_of_lt (lt_of_not_le hbq))
          constructor
          · simp [sellLoop, fifoSpecPnl, hr, hbq, hmin]
          · simp [sellLoop, fifoSpecMatched, hr, hbq, hmin]
      · constructor <;> simp [sellLoop, fifoSpecPnl, fifoSpecMatched, hr]
  · norm_num [pnlResultFor, generate_realized_pnl_fifo, symbolsIn, addSym, runSymbol,
      sortTrades, tradesFor, processTrade, sellLoop, finalizeSymbol, finalizeNoQuote,
      extract_quote_asset, strEndsWith, commonQuotes, lookupComm, addCommission,
      initFifoState, fifoExample1, List.insertionSort, List.orderedInsert, timeLe,
      List.foldl, List.filter, List.find?]
  · norm_num [pnlResultFor, generate_realized_pnl_fifo, symbolsIn, addSym, runSymbol,
      sortTrades, tradesFor, processTrade, sellLoop, finalizeSymbol, finalizeNoQuote,
      extract_quote_asset, strEndsWith, commonQuotes, lookupComm, addCommission,
      initFifoState, fifoExample2, List.insertionSort, List.orderedInsert, timeLe,
      List.foldl, List.filter, List.find?]

/-- C7 counterexample: on a symbol charged commissions in both BNB and the
quote asset USDT, the positive BNB commission appears nowhere in the notes:
the only note is the quote-commission subtraction, so the foreign fee is
silently dropped from the notes. -/
theorem c7_mixed_commission_counterexample :
    (∃ t ∈ mixedCommissionLedger, t.commissionAsset = "BNB" ∧ 0 < t.commission)
    ∧ pnlResultFor mixedCommissionLedger "BTCUSDT" =
        some ⟨"BTCUSDT", 4945, 1, 50000, 55000, [FifoNote.commissionSubtracted "USDT"]⟩ := by
  constructor
  · exact ⟨⟨1, "BTCUSDT", true, 1, 50000, 1, "BNB"⟩, by simp [mixedCommissionLedger], rfl,
      by norm_num⟩
  · have hb1 : (("BNB" : String) == "USDT") = false := by decide
    have hb2 : ("BNB" : String) ≠ "USDT" := by decide
    norm_num [pnlResultFor, generate_realized_pnl_fifo, symbolsIn, addSym, runSymbol,
      sortTrades, tradesFor, processTrade, sellLoop, finalizeSymbol, finalizeNoQuote,
      extract_quote_asset, strEndsWith, commonQuotes, lookupComm, addCommission,
      initFifoState, mixedCommissionLedger, List.insertionSort, List.orderedInsert, timeLe,
      List.foldl, List.filter, List.find?, hb1, hb2]

/-- C7 (amended): a commission charged in the symbol's quote asset is
subtracted from gross PnL and noted; commissions in other assets are left
unconverted and are noted (as not converted) only when no quote-asset
commission was charged — when one was, the subtraction note is the only
commission note and foreign-asset fees are not mentioned. -/
theorem c7_commission_notes (s : String) (st : FifoState) :
    (∀ qa c, extract_quote_asset s = some qa → lookupComm st.commissions qa = some c →
      (finalizeSymbol s st).realized_pnl_quote = st.realized_pnl - c ∧
      (finalizeSymbol s st).notes =
        (st.notes ++ (if st.buy_queue.isEmpty then []
          else [FifoNote.unmatchedBuy
            ((st.buy_queue.map (fun l => l.1)).foldl (fun a b => a + b) 0)]))
          ++ [FifoNote.commissionSubtracted qa])
    ∧ ((∀ qa, extract_quote_asset s = some qa → lookupComm st.commissions qa = none) →
      (finalizeSymbol s st).realized_pnl_quote = st.realized_pnl ∧
      (finalizeSymbol s st).notes =
        (st.notes ++ (if st.buy_queue.isEmpty then []
          else [FifoNote.unmatchedBuy
            ((st.buy_queue.map (fun l => l.1)).foldl (fun a b => a + b) 0)]))
          ++ (if st.commissions.isEmpty then []
              else [FifoNote.feesNotConverted (st.commissions.map (fun kv => kv.1))])) := by
  constructor
  · intro qa c hqa hc
    constructor <;> simp [finalizeSymbol, hqa, hc]
  · intro hnone
    cases hqa : extract_quote_asset s with
    | none =>
      constructor <;> simp [finalizeSymbol, finalizeNoQuote, hqa]
    | some qa =>
      constructor <;> simp [finalizeSymbol, finalizeNoQuote, hqa, hnone qa hqa]

/-- Witness for c7_commission_notes: the mixed-commission state takes the
subtraction branch, the foreign-only state takes the not-converted branch. -/
theorem c7_commission_notes_witness :
    ((finalizeSymbol "BTCUSDT" stateMixedComm).realized_pnl_quote =
        stateMixedComm.realized_pnl - 55 ∧
      (finalizeSymbol "BTCUSDT" stateMixedComm).notes =
        (stateMixedComm.notes ++ (if stateMixedComm.buy_queue.isEmpty then []
          else [FifoNote.unmatchedBuy
            ((stateMixedComm.buy_queue.map (fun l => l.1)).foldl (fun a b => a + b) 0)]))
          ++ [FifoNote.commissionSubtracted "USDT"])
    ∧ ((finalizeSymbol "BTCUSDT" stateForeignComm).realized_pnl_quote =
        stateForeignComm.realized_pnl ∧
      (finalizeSymbol "BTCUSDT" stateForeignComm).notes =
        (stateForeignComm.notes ++ (if stateForeignComm.buy_queue.isEmpty then []
          else [FifoNote.unmatchedBuy
            ((stateForeignComm.buy_queue.map (fun l => l.1)).foldl (fun a b => a + b) 0)]))
          ++ (if stateForeignComm.commissions.isEmpty then []
              else [FifoNote.feesNotConverted
                (stateForeignComm.commissions.map (fun kv => kv.1))])) :=
  ⟨(c7_commission_notes "BTCUSDT" stateMixedComm).1 "USDT" 55 rfl rfl,
   (c7_commission_notes "BTCUSDT" stateForeignComm).2 (by
      intro qa hqa
      have hq : some "USDT" = some qa := hqa
      cases hq
      rfl)⟩

section SortLemmas

variable {α : Type} (r : α → α → Prop) [DecidableRel r]

lemma orderedInsert_eq_cons (a : α) (l : List α) (h : ∀ b ∈ l, r a b) :
    List.orderedInsert r a l = a :: l := by
  cases l with
  | nil => rfl
  | cons b bs =>
    unfold List.orderedInsert
    rw [if_pos (h b (List.mem_cons_self b bs))]

lemma filter_orderedInsert_pos [IsTrans α r] (p : α → Bool) (a : α) (l : List α)
    (hs : List.Sorted r l) (ha : p a = true) :
    (List.orderedInsert r a l).filter p = List.orderedInsert r a (l.filter p) := by
  induction l with
  | nil => simp [List.orderedInsert, ha]
  | cons b bs ih =>
    obtain ⟨hb, hbs⟩ := List.sorted_cons.mp hs
    by_cases hr : r a b
    · rw [List.orderedInsert, if_pos hr]
      by_cases hp : p b
      · rw [List.filter_cons_of_pos ha, List.filter_cons_of_pos hp, List.orderedInsert,
          if_pos hr]
      · rw [List.filter_cons_of_pos ha, List.filter_cons_of_neg hp,
          orderedInsert_eq_cons r a (bs.filter p)
            (fun x hx => Trans.trans hr (hb x (List.mem_of_mem_filter hx)))]
    · rw [List.orderedInsert, if_neg hr]
      by_cases hp : p b
      · rw [List.filter_cons_of_pos hp, List.filter_cons_of_pos hp, ih hbs,
          List.orderedInsert, if_neg hr]
      · rw [List.filter_cons_of_neg hp, List.filter_cons_of_neg hp, ih hbs]

lemma filter_orderedInsert_neg (p : α → Bool) (a : α) (l : List α) (ha : p a = false) :
    (List.orderedInsert r a l).filter p = l.filter p := by
  induction l with
  | nil => simp [List.orderedInsert, ha]
  | cons b bs ih =>
    by_cases hr : r a b
    · rw [List.orderedInsert, if_pos hr, List.filter_cons_of_neg (by simp [ha])]
    · rw [List.orderedInsert, if_neg hr]
      by_cases hp : p b
      · rw [List.filter_cons_of_pos hp, List.filter_cons_of_pos hp, ih]
      · rw [List.filter_cons_of_neg hp, List.filter_cons_of_neg hp, ih]

lemma filter_insertionSort [IsTotal α r] [IsTrans α r] (p : α → Bool) (l : List α) :
    (List.insertionSort r l).filter p = List.insertionSort r (l.filter p) := by
  induction l with
  | nil => rfl
  | cons a l ih =>
    rw [List.insertionSort]
    by_cases hp : p a
    · rw [filter_orderedInsert_pos r p a _ (List.sorted_insertionSort r l) hp, ih,
        List.filter_cons_of_pos hp, List.insertionSort]
    · rw [filter_orderedInsert_neg r p a _ (by simp [hp]), ih,
        List.filter_cons_of_neg (by simp [hp])]

end SortLemmas

lemma tradesFor_sortTrades (l : List Trade) (s : String) :
    tradesFor (sortTrades l) s = sortTrades (tradesFor l s) :=
  filter_insertionSort timeLe (fun t => t.symbol == s) l

lemma runSymbol_sortTrades (l : List Trade) (s : String) :
    runSymbol (sortTrades l) s = runSymbol l s := by
  unfold runSymbol
  rw [tradesFor_sortTrades]
  unfold sortTrades
  rw [List.Sorted.insertionSort_eq (List.sorted_insertionSort timeLe (tradesFor l s))]

lemma finalizeSymbol_symbol (s : String) (st : FifoState) :
    (finalizeSymbol s st).symbol = s := by
  cases hqa : extract_quote_asset s with
  | none => simp [finalizeSymbol, finalizeNoQuote, hqa]
  | some qa =>
    cases hc : lookupComm st.commissions qa with
    | none => simp [finalizeSymbol, finalizeNoQuote, hqa, hc]
    | some c => simp [finalizeSymbol, hqa, hc]

lemma runSymbol_symbol (l : List Trade) (s : String) : (runSymbol l s).symbol = s :=
  finalizeSymbol_symbol s _

lemma find?_map_runSymbol (l : List Trade) (syms : List String) (s : String) :
    (syms.map (runSymbol l)).find? (fun row => row.symbol == s) =
      (syms.find? (fun x => x == s)).map (runSymbol l) := by
  induction syms with
  | nil => rfl
  | cons x xs ih =>
    by_cases hx : x = s
    · subst hx
      rw [List.map_cons, List.find?_cons_of_pos _ (by simp [runSymbol_symbol]),
        List.find?_cons_of_pos _ (by simp)]
      rfl
    · rw [List.map_cons, List.find?_cons_of_neg _ (by simp [runSymbol_symbol, hx]),
        List.find?_cons_of_neg _ (by simp [hx]), ih]

lemma find?_eq_mem (syms : List String) (s : String) :
    syms.find? (fun x => x == s) = if s ∈ syms then some s else none := by
  induction syms with
  | nil => rfl
  | cons x xs ih =>
    by_cases hx : x = s
    · subst hx
      rw [List.find?_cons_of_pos _ (by simp)]
      simp [List.mem_cons]
    · have hx' : ¬ s = x := fun h => hx h.symm
      rw [List.find?_cons_of_neg _ (by simp [hx]), ih]
      simp [List.mem_cons, hx']

lemma pnlResultFor_eq (l : List Trade) (s : String) :
    pnlResultFor l s = if s ∈ symbolsIn l then some (runSymbol l s) else none := by
  unfold pnlResultFor generate_realized_pnl_fifo
  rw [find?_map_runSymbol, find?_eq_mem]
  by_cases h : s ∈ symbolsIn l <;> simp [h]

lemma mem_addSym (acc : List String) (x s : String) :
    s ∈ addSym acc x ↔ s ∈ acc ∨ (x ≠ "" ∧ s = x) := by
  unfold addSym
  by_cases hx : x = ""
  · simp [hx]
  · have hxb : (x == "") = false := by simp [hx]
    rw [hxb]
    by_cases hmem : x ∈ acc
    · simp only [Bool.false_eq_true, if_false, if_pos hmem]
      constructor
      · exact Or.inl
      · rintro (h | ⟨-, rfl⟩)
        · exact h
        · exact hmem
    · simp only [Bool.false_eq_true, if_false, if_neg hmem, List.mem_append,
        List.mem_singleton]
      simp [hx]

lemma mem_foldl_addSym (l : List Trade) :
    ∀ (acc : List String) (s : String),
    s ∈ l.foldl (fun acc t => addSym acc t.symbol) acc ↔
      s ∈ acc ∨ (s ≠ "" ∧ ∃ t ∈ l, t.symbol = s) := by
  induction l with
  | nil =>
    intro acc s
    simp
  | cons t ts ih =>
    intro acc s
    rw [List.foldl_cons, ih, mem_addSym]
    constructor
    · rintro ((h | ⟨hne, rfl⟩) | ⟨hne, u, hu, hus⟩)
      · exact Or.inl h
      · exact Or.inr ⟨hne, t, List.mem_cons_self t ts, rfl⟩
      · exact Or.inr ⟨hne, u, List.mem_cons_of_mem t hu, hus⟩
    · rintro (h | ⟨hne, u, hu, hus⟩)
      · exact Or.inl (Or.inl h)
      · rcases List.mem_cons.mp hu with rfl | hmem
        · exact Or.inl (Or.inr ⟨by rw [hus]; exact hne, hus.symm⟩)
        · exact Or.inr ⟨hne, u, hmem, hus⟩

lemma mem_symbolsIn (l : List Trade) (s : String) :
    s ∈ symbolsIn l ↔ s ≠ "" ∧ ∃ t ∈ l, t.symbol = s := by
  unfold symbolsIn
  rw [mem_foldl_addSym]
  simp

lemma mem_symbolsIn_sortTrades (l : List Trade) (s : String) :
    s ∈ symbolsIn (sortTrades l) ↔ s ∈ symbolsIn l := by
  rw [mem_symbolsIn, mem_symbolsIn]
  have hperm := List.perm_insertionSort timeLe l
  constructor <;> rintro ⟨hne, t, ht, hts⟩
  · exact ⟨hne, t, hperm.mem_iff.mp ht, hts⟩
  · exact ⟨hne, t, hperm.mem_iff.mpr ht, hts⟩

/-- C8 (amended): the FIFO engine does not fail on an out-of-order ledger:
it sorts each symbol's trades by timestamp itself, so any ledger produces
exactly the per-symbol results of the chronologically sorted ledger. -/
theorem c8_engine_sorts_instead_of_failing (l : List Trade) (s : String) :
    pnlResultFor l s = pnlResultFor (sortTrades l) s := by
  rw [pnlResultFor_eq, pnlResultFor_eq, runSymbol_sortTrades]
  simp only [mem_symbolsIn_sortTrades]

/-- C8 counterexample: a ledger listing the sell (time 2) before the buy
(time 1) does not make the engine fail: it produces the fully matched PnL
row of the chronological order instead of any error. -/
theorem c8_unordered_ledger_counterexample :
    pnlResultFor unorderedLedger "BTCUSDT" =
      some ⟨"BTCUSDT", 5000, 1, 50000, 55000, []⟩ := by
  norm_num [pnlResultFor, generate_realized_pnl_fifo, symbolsIn, addSym, runSymbol,
    sortTrades, tradesFor, processTrade, sellLoop, finalizeSymbol, finalizeNoQuote,
    extract_quote_asset, strEndsWith, commonQuotes, lookupComm, addCommission,
    initFifoState, unorderedLedger, List.insertionSort, List.orderedInsert, timeLe,
    List.foldl, List.filter, List.find?]

/-- C9 (amended): at a row whose 14-period average loss is 0 the RSI
computation raises no division error: when the average gain is positive the
RSI saturates at 100, and when the average gain is also 0 the RSI is NaN
(undefined), not 100. -/
theorem c9_rsi_zero_avg_loss (prices : List ℚ) (period : Nat) (i : Nat) (g : ℚ)
    (hl : (avgLoss prices period).get? i = some (ERat.val 0))
    (hg : (avgGain prices period).get? i = some (ERat.val g)) :
    (0 < g → (calculate_rsi prices period).get? i = some (ERat.val 100))
    ∧ (g = 0 → (calculate_rsi prices period).get? i = some ERat.nan) := by
  constructor
  · intro hpos
    unfold calculate_rsi
    rw [List.get?_zipWith', hg, hl]
    have hne : g ≠ 0 := ne_of_gt hpos
    simp [rsiPoint, ERat.div, ERat.add, ERat.sub, hpos, hne]
  · intro h0
    subst h0
    unfold calculate_rsi
    rw [List.get?_zipWith', hg, hl]
    simp [rsiPoint, ERat.div, ERat.add, ERat.sub]

/-- C9 counterexample: a constant 14-sample close series.  At row 13 the
14-period average loss is 0, yet the RSI is NaN (0/0), not 100. -/
theorem c9_flat_series_counterexample :
    (avgLoss flatPrices 14).get? 13 = some (ERat.val 0)
    ∧ (calculate_rsi flatPrices 14).get? 13 = some ERat.nan := by
  constructor <;>
    norm_num [avgLoss, avgGain, calculate_rsi, rollingMean, gainsOf, lossesOf, diffs,
      sumE, rsiPoint, ERat.add, ERat.sub, ERat.div, ERat.posB, ERat.negB, ERat.neg,
      flatPrices, List.replicate, List.range, List.range.loop, List.zipWith, List.foldl,
      List.map, List.take, List.drop]

/-- Witness for c9_rsi_zero_avg_loss: a strictly rising series saturates at
100, the flat series yields NaN. -/
theorem c9_rsi_zero_avg_loss_witness :
    (calculate_rsi risingPrices 14).get? 14 = some (ERat.val 100)
    ∧ (calculate_rsi flatPrices 14).get? 13 = some ERat.nan :=
  ⟨(c9_rsi_zero_avg_loss risingPrices 14 14 1
      (by norm_num [avgLoss, rollingMean, lossesOf, diffs, sumE, ERat.add, ERat.div,
        ERat.negB, ERat.neg, risingPrices, List.range, List.range.loop, List.zipWith,
        List.foldl, List.map, List.take, List.drop])
      (by norm_num [avgGain, rollingMean, gainsOf, diffs, sumE, ERat.add, ERat.div,
        ERat.posB, risingPrices, List.range, List.range.loop, List.zipWith,
        List.foldl, List.map, List.take, List.drop])).1 (by norm_num),
   (c9_rsi_zero_avg_loss flatPrices 14 13 0
      (by norm_num [avgLoss, rollingMean, lossesOf, diffs, sumE, ERat.add, ERat.div,
        ERat.negB, ERat.neg, flatPrices, List.replicate, List.range, List.range.loop,
        List.zipWith, List.foldl, List.map, List.take, List.drop])
      (by norm_num [avgGain, rollingMean, gainsOf, diffs, sumE, ERat.add, ERat.div,
        ERat.posB, flatPrices, List.replicate, List.range, List.range.loop,
        List.zipWith, List.foldl, List.map, List.take, List.drop])).2 rfl⟩

end Cryptohunk
